import Mathlib

/-!
Verification development for the `dtrace_aggr2` plugin of the `nad` repository
(`src/lib/dtrace_aggr2/index.js`).

JavaScript strings are embedded as `List Char` (abbreviated `Str`); JavaScript
numbers appearing as sample counts are embedded as `Option Int`, where `none`
models `NaN` (the only non-integer number the module can produce, via
`parseInt` on malformed input).  JavaScript objects used as string-keyed maps
are embedded as insertion-ordered association lists: assigning to an existing
key updates the value in place, assigning to a fresh key appends.  (JavaScript
`for..in` enumerates integer-like keys first in ascending order; all concrete
scenarios below use keys whose enumeration order coincides with insertion
order, so the association-list model is adequate for them.)
-/

set_option synthInstance.maxSize 1000

abbrev Str : Type := List Char

/-- A JavaScript number as used for sample counts: `none` models `NaN`. -/
abbrev JSNum : Type := Option Int

/-- JavaScript `+` on counts: any operation touching `NaN` yields `NaN`. -/
def jsAdd (a b : JSNum) : JSNum :=
  match a, b with
  | some x, some y => some (x + y)
  | _, _ => none

/-- Lookup in an object embedded as an association list (`obj[k]`,
`undefined` becomes `none`). -/
def getVal? {α : Type} (m : List (Str × α)) (k : Str) : Option α :=
  (m.find? (fun p => p.1 = k)).map Prod.snd

/-- Lookup with a default. -/
def getValD {α : Type} (m : List (Str × α)) (k : Str) (d : α) : α :=
  (getVal? m k).getD d

/-- JavaScript `{}.hasOwnProperty.call(m, k)`. -/
def hasKey {α : Type} (m : List (Str × α)) (k : Str) : Bool :=
  m.any (fun p => p.1 = k)

/-- JavaScript assignment `m[k] = v`: update in place if the key exists,
append otherwise. -/
def setKey {α : Type} (m : List (Str × α)) (k : Str) (v : α) : List (Str × α) :=
  if hasKey m k then m.map (fun p => if p.1 = k then (k, v) else p)
  else m ++ [(k, v)]

/-- One metric's distribution: latency-bucket label to count
(`metrics[metricKey]` in the source). -/
abbrev Samples : Type := List (Str × JSNum)

/-- A window's metrics: metric name to distribution. -/
abbrev Metrics : Type := List (Str × Samples)

/-- The source's `aggregateSamples(tgt, src)`: merge one window (`src`,
which may be `null`/`undefined`, both modelled `none` — the source's
`src === null` early return and JavaScript's empty `for..in` over `undefined`
both leave `tgt` unchanged) into the running aggregate `tgt`, summing counts
per metric per bucket label; absent buckets are initialised to `0` before the
`+=`. -/
def aggregateSamples (tgt : Metrics) (src : Option Metrics) : Metrics :=
  match src with
  | none => tgt
  | some s =>
    s.foldl
      (fun t p =>
        setKey t p.1
          (p.2.foldl
            (fun ts q => setKey ts q.1 (jsAdd (getValD ts q.1 (some 0)) q.2))
            (getValD t p.1 [])))
      tgt

/-- JavaScript's rendering of the numbers reachable here: an integer prints
in decimal with a leading minus sign when negative, `NaN` prints as "NaN". -/
def showJSNum : JSNum → Str
  | none => ['N', 'a', 'N']
  | some i => if i < 0 then '-' :: Nat.toDigits 10 i.natAbs else Nat.toDigits 10 i.natAbs

/-- The source's `makeHistogram(samples)`: the list of
`H[<label>]=<count>` strings, in object-enumeration order. -/
def makeHistogram (samples : Samples) : List Str :=
  samples.map (fun p => 'H' :: '[' :: p.1 ++ ']' :: '=' :: showJSNum p.2)

/-- The value stored per metric in `flush`'s result:
`{ _type: 'n', _value: makeHistogram(...) }`. -/
structure HistValue where
  _type : Str
  _value : List Str
deriving DecidableEq, Repr

/-- The second loop of `flush`: render every aggregated metric. -/
def renderHistograms (aggregates : Metrics) : List (Str × HistValue) :=
  aggregates.map (fun p => (p.1, ⟨['n'], makeHistogram p.2⟩))

/-- JavaScript `parseInt(s, 10)` on the argument `aggSample[1]`, which is `undefined`
(modelled `none`) when the line has no `|`.  `parseInt(undefined, 10)` is
`NaN`; otherwise an optional sign followed by a maximal run of decimal digits
is parsed, `NaN` if that run is empty.  (Input lines are already stripped of
whitespace, so `parseInt`'s leading-whitespace skipping never fires.) -/
def jsParseInt (s : Option Str) : JSNum :=
  match s with
  | none => none
  | some str =>
    let body : Str :=
      if str.head? = some '-' ∨ str.head? = some '+' then str.tail else str
    let sgn : Int := if str.head? = some '-' then -1 else 1
    let digits := body.takeWhile Char.isDigit
    if digits.isEmpty then none
    else some (sgn * (digits.foldl (fun a c => a * 10 + (c.toNat - 48)) 0 : Nat))

/-- JavaScript split `s.split(sep)` for a one-character separator: always returns a
non-empty list of separator-free segments. -/
def splitOnChar (sep : Char) : Str → List Str
  | [] => [[]]
  | c :: cs =>
    if c = sep then [] :: splitOnChar sep cs
    else
      match splitOnChar sep cs with
      | [] => [[c]]
      | h :: t => (c :: h) :: t

/-- The source's per-line normalisation `replace(/[\s@]+/g, '')`: drop every
whitespace character and every `@`.  (Only the ASCII whitespace characters
can occur in dtrace output; they are the ones listed.) -/
def normalizeLine (l : Str) : Str :=
  l.filter (fun c =>
    ¬(c = ' ' ∨ c = '\t' ∨ c = '\n' ∨ c = '\r' ∨ c = '\x0b' ∨ c = '\x0c' ∨ c = '@'))

/-- The test `line.match(/^=(.+)$/)`: the captured metric name, if the line is `=`
followed by at least one character (lines contain no newline at this point). -/
def matchEq (l : Str) : Option Str :=
  match l with
  | '=' :: rest => if rest.isEmpty then none else some rest
  | _ => none

/-- One iteration of the parsing loop in the `>END` branch (source lines
163–191): the accumulator is the current `metricKey` (`none` = `null`) and
the `metrics` object under construction.  `currTimestamp` is
`Math.floor(Date.now()/1000)`, never `null`, so the `currTimestamp === null`
half of the guard is never true and is dropped.  The sample-line test
`line.match(/\d+|\d+/)` succeeds exactly when the line contains a decimal
digit anywhere. -/
def parseLinesAux (acc : Option Str × Metrics) (line : Str) : Option Str × Metrics :=
  match matchEq line with
  | some name => (some name, acc.2)
  | none =>
    match acc.1 with
    | none => acc
    | some mk =>
      if line.any Char.isDigit then
        let parts := splitOnChar '|' line
        let latency := parts.headD []
        let count := jsParseInt (parts.get? 1)
        if count = some 0 then acc
        else (some mk, setKey acc.2 mk (setKey (getValD acc.2 mk []) latency count))
      else acc

/-- The whole parsing loop over the accumulated report lines, starting with
`metricKey = null` and `metrics = {}`. -/
def parseLines (lines : List Str) : Metrics :=
  (lines.foldl parseLinesAux (none, [])).2

/-- Lookup of `metrics[mk][lab]` on a parsed window: the stored count of bucket `lab`
of metric `mk`, if present. -/
def lookupSample (m : Metrics) (mk lab : Str) : Option JSNum :=
  (getVal? m mk).bind fun s => getVal? s lab

/-- No bucket of the distribution carries a stored count of exactly `0`. -/
def noZeroS (s : Samples) : Prop := ∀ q ∈ s, q.2 ≠ some 0

/-- No bucket of any metric of the window carries a stored count of `0`. -/
def noZeroM (m : Metrics) : Prop := ∀ p ∈ m, noZeroS p.2

/-- The mutable state of a started `Dtrace` instance.  `buffer` and `lines`
are the values `start()` initialises (`''` and `[]`).  `lastTimestamp` is
never written by the constructor, so it is JavaScript `undefined` until the
first stored report; no assignment ever makes it `null`, hence the source's
`self.lastTimestamp === null` test (line 150) is false in every reachable
state and its branch is dead — `none` here models `undefined`. -/
structure DtraceState where
  buffer : Str
  lines : List Str
  windows : List (Option Metrics)
  lastTimestamp : Option Nat
deriving DecidableEq, Repr

/-- The state right after `new Dtrace(script)` + `start()`: empty buffer and
line list, sixty `null` ring slots, `lastTimestamp` undefined. -/
def fresh : DtraceState :=
  { buffer := [], lines := [], windows := List.replicate 60 none, lastTimestamp := none }

/-- The gap-handling step of the `>END` branch (source lines 153–161): if
`now − last ≥ 60` the whole ring is stale and all sixty slots are nulled,
otherwise every second strictly between `last` and `now` has its slot
`second mod 60` nulled. -/
def clearGap (windows : List (Option Metrics)) (last now : Nat) : List (Option Metrics) :=
  if (now : Int) - (last : Int) ≥ 60 then List.replicate 60 none
  else (List.range (now - last - 1)).foldl (fun w j => w.set ((last + 1 + j) % 60) none) windows

/-- The `>END` branch (source lines 145–199) at wall-clock second `now`.
When `lastTimestamp` is undefined both the `>= 60` guard and the clearing
loop bound are `NaN` comparisons, which are false, so nothing is cleared.
The parsed report is stored — and `lastTimestamp` advanced — exactly when the
accumulated line list is non-empty (`self.lines.length > 0`); the slot at
`now mod 60` is always nulled first.  The accumulated lines are not reset
here (only `>START` resets them). -/
def finalizeReport (now : Nat) (st : DtraceState) : DtraceState :=
  let windows1 :=
    match st.lastTimestamp with
    | none => st.windows
    | some last => clearGap st.windows last now
  let metrics := parseLines st.lines
  let windows2 := windows1.set (now % 60) none
  if st.lines.length > 0 then
    { st with windows := windows2.set (now % 60) (some metrics), lastTimestamp := some now }
  else { st with windows := windows2 }

/-- The spec's `Record(now, ·)` operation: a report whose accumulated
(normalised) data lines are `ls` is finalised at second `now` — i.e. a
`>START`, the data lines, then `>END`. -/
def record (st : DtraceState) (now : Nat) (ls : List Str) : DtraceState :=
  finalizeReport now { st with lines := ls }

/-- A sequence of reports finalised at consecutive seconds `t0, t0+1, …`. -/
def recSeq (st : DtraceState) (t0 : Nat) : List (List Str) → DtraceState
  | [] => st
  | ls :: rest => recSeq (record st t0 ls) (t0 + 1) rest

/-- The line-framing step of the stdout handler (source lines 119–130):
append the chunk to the pending buffer, split on newline; if the final
segment is empty the pending buffer resets and *every* segment (the trailing
empty one included) is processed, otherwise the final segment becomes the new
pending buffer and the remaining segments are processed. -/
def frameChunk (buf chunk : Str) : Str × List Str :=
  let segs := splitOnChar '\n' (buf ++ chunk)
  if segs.getLast? = some [] then ([], segs)
  else ((segs.getLast?).getD [], segs.dropLast)

/-- Processing of one framed line (source lines 132–201): normalise, then
dispatch on `>`-prefixes; any other line is appended to the report in
progress.  `now` is the wall-clock second at which the chunk is handled. -/
def handleLine (now : Nat) (st : DtraceState) (raw : Str) : DtraceState :=
  let l := normalizeLine raw
  if l.head? ≠ some '>' then { st with lines := st.lines ++ [l] }
  else if List.isPrefixOf ['>', 'S', 'T', 'A', 'R', 'T'] l then { st with lines := [] }
  else if List.isPrefixOf ['>', 'E', 'N', 'D'] l then finalizeReport now st
  else st

/-- The whole stdout `data` handler for one chunk arriving at second `now`. -/
def handleChunk (now : Nat) (st : DtraceState) (chunk : Str) : DtraceState :=
  let fr := frameChunk st.buffer chunk
  fr.2.foldl (handleLine now) { st with buffer := fr.1 }

/-- A sequence of chunks all arriving at second `now`. -/
def handleChunks (now : Nat) (st : DtraceState) (cs : List Str) : DtraceState :=
  cs.foldl (handleChunk now) st

/-- The framer in isolation: fold `frameChunk` over a chunk list, collecting
the emitted (not yet normalised) lines. -/
def frameAll (buf : Str) : List Str → Str × List Str
  | [] => (buf, [])
  | c :: cs =>
    let fr := frameChunk buf c
    let rest := frameAll fr.1 cs
    (rest.1, fr.2 ++ rest.2)

/-- The `Dtrace` class constructor (source lines 65–85): a `null` or
`undefined` script (both modelled `none`) throws; otherwise the instance
records the script, whether it is inline (does not start with `/`), and the
initial aggregation state. -/
structure Dtrace where
  script : Str
  inlineScript : Bool
  st : DtraceState
deriving DecidableEq, Repr

def mkDtrace (script : Option Str) : Except Str Dtrace :=
  match script with
  | none => .error ("Script is a required parameter for Dtrace class").toList
  | some s => .ok { script := s, inlineScript := s.head? ≠ some '/', st := fresh }

/-- The read `this.windows[i % 60]` inside the loop of `flush`, for a possibly negative
loop index `i : Int`.  JavaScript `%` truncates toward zero, so a negative
`i` gives a negative index and `windows[i % 60]` is `undefined`, which
`aggregateSamples` treats exactly like `null` — both are `none` here. -/
def getWindow (st : DtraceState) (i : Int) : Option Metrics :=
  if 0 ≤ i then st.windows.getD (i.toNat % 60) none else none

/-- The method `flush(numSamples)` called at wall-clock second `now` (source lines
210–230), with the instance state threaded explicitly: the first loop merges
`windows[i % 60]` for every `i` from `now − numSamples` up to
`lastTimestamp` inclusive (zero iterations when `lastTimestamp` is
undefined, since `i <= undefined` is a false `NaN` comparison); the second
loop renders each aggregate.  The source writes only the local `aggregates`
and `histograms` objects, so the state passes through unchanged. -/
def flushPair (st : DtraceState) (now numSamples : Nat) :
    List (Str × HistValue) × DtraceState :=
  match st.lastTimestamp with
  | none => ([], st)
  | some last =>
    let startTimestamp : Int := (now : Int) - (numSamples : Int)
    let cnt : Nat := ((last : Int) - startTimestamp + 1).toNat
    let folded :=
      (List.range cnt).foldl
        (fun p (j : Nat) =>
          (p.1, aggregateSamples p.2 (getWindow p.1 (startTimestamp + (j : Int)))))
        (st, ([] : Metrics))
    (renderHistograms folded.2, folded.1)

/-- The value `flush` returns. -/
def flush (st : DtraceState) (now numSamples : Nat) : List (Str × HistValue) :=
  (flushPair st now numSamples).1

/-! ### List helpers -/

/-- Prepend a string onto the first segment of a split (the glue used when
describing how a split decomposes over append). -/
def consHead (p : Str) : List Str → List Str
  | [] => [p]
  | h :: t => (p ++ h) :: t

/-- The end-to-end scenario state: the report
`>START / =read / 10|2 / 20|1 / >END` delivered in one chunk at second
1000. -/
def c8State : DtraceState :=
  handleChunk 1000 fresh ((">START\n=read\n10|2\n20|1\n>END\n").toList)

theorem getD_set_self {α : Type} (l : List α) (i : Nat) (v d : α) (h : i < l.length) :
    (l.set i v).getD i d = v := by
  induction l generalizing i with
  | nil => simp at h
  | cons a t ih =>
    cases i with
    | zero => rfl
    | succ n => simpa using ih n (by simpa using h)

theorem getD_set_ne {α : Type} (l : List α) (i j : Nat) (v : α) (d : α) (h : i ≠ j) :
    (l.set i v).getD j d = l.getD j d := by
  induction l generalizing i j with
  | nil => simp
  | cons a t ih =>
    cases i with
    | zero =>
      cases j with
      | zero => exact absurd rfl h
      | succ m => rfl
    | succ n =>
      cases j with
      | zero => rfl
      | succ m => simpa using ih n m (by omega)

theorem getD_replicate_none {α : Type} (n i : Nat) :
    (List.replicate n (none : Option α)).getD i none = none := by
  induction n generalizing i with
  | zero => simp
  | succ m ih =>
    cases i with
    | zero => rfl
    | succ k => exact ih k

/-- A fold of single-slot clears, read back at index `j`: the result is
`none` exactly when some fold element targets `j`, otherwise the original
value (defaults matter only for in-range reads, and clears of `none` slots
are invisible either way because the default is `none`). -/
theorem getD_foldl_set_none (rng : List Nat) (f : Nat → Nat) (w : List (Option Metrics))
    (j : Nat) :
    (rng.foldl (fun w i => w.set (f i) none) w).getD j none =
      if ∃ i ∈ rng, f i = j then none else w.getD j none := by
  induction rng generalizing w with
  | nil => simp
  | cons a t ih =>
    simp only [List.foldl_cons]
    rw [ih]
    by_cases ha : f a = j
    · subst ha
      have hset : (w.set (f a) none).getD (f a) none = none := by
        by_cases hlen : f a < w.length
        · exact getD_set_self w (f a) none none hlen
        · have : (w.set (f a) none).getD (f a) none = w.getD (f a) none := by
            rw [List.set_eq_of_length_le (by omega)]
          rw [this]
          rw [List.getD_eq_getElem?_getD, List.getElem?_eq_none (by omega)]
          rfl
      simp only [hset]
      have : ∃ i ∈ a :: t, f i = f a := ⟨a, by simp⟩
      simp [this]
    · rw [getD_set_ne w (f a) j none none ha]
      by_cases ht : ∃ i ∈ t, f i = j
      · have : ∃ i ∈ a :: t, f i = j := by
          obtain ⟨i, hi, hfi⟩ := ht
          exact ⟨i, by simp [hi], hfi⟩
        simp [ht, this]
      · have : ¬∃ i ∈ a :: t, f i = j := by
          rintro ⟨i, hi, hfi⟩
          rcases List.mem_cons.mp hi with rfl | hi
          · exact ha hfi
          · exact ht ⟨i, hi, hfi⟩
        simp [ht, this, ha]

theorem length_foldl_set {α : Type} (rng : List Nat) (f : Nat → Nat) (w : List (Option α)) :
    (rng.foldl (fun w i => w.set (f i) none) w).length = w.length := by
  induction rng generalizing w with
  | nil => rfl
  | cons a t ih => simp [ih]

theorem clearGap_length (w : List (Option Metrics)) (last now : Nat) (h : w.length = 60) :
    (clearGap w last now).length = 60 := by
  unfold clearGap
  split
  · simp
  · rw [length_foldl_set]
    exact h

/-- Reading a slot other than the one at `now mod 60` after gap clearing. -/
theorem clearGap_getD (w : List (Option Metrics)) (last now j : Nat) (hln : last ≤ now) :
    (clearGap w last now).getD j none =
      if 60 ≤ now - last then none
      else if ∃ s ∈ List.range now, last < s ∧ s % 60 = j then none
      else w.getD j none := by
  unfold clearGap
  by_cases hbig : 60 ≤ now - last
  · have : (now : Int) - (last : Int) ≥ 60 := by omega
    simp only [this, if_pos, getD_replicate_none, hbig, if_true]
  · have : ¬((now : Int) - (last : Int) ≥ 60) := by omega
    rw [if_neg this, if_neg hbig, getD_foldl_set_none]
    have hiff : (∃ i ∈ List.range (now - last - 1), (last + 1 + i) % 60 = j) ↔
        (∃ s ∈ List.range now, last < s ∧ s % 60 = j) := by
      constructor
      · rintro ⟨i, hi, hmod⟩
        rw [List.mem_range] at hi
        exact ⟨last + 1 + i, List.mem_range.mpr (by omega), by omega, hmod⟩
      · rintro ⟨s, hs, hlt, hmod⟩
        rw [List.mem_range] at hs
        exact ⟨s - last - 1, List.mem_range.mpr (by omega), by
          have : last + 1 + (s - last - 1) = s := by omega
          rw [this]; exact hmod⟩
    by_cases hex : ∃ s ∈ List.range now, last < s ∧ s % 60 = j
    · rw [if_pos (by simpa using hiff.mpr hex), if_pos (by simpa using hex)]
    · have hni : ¬∃ i ∈ List.range (now - last - 1), (last + 1 + i) % 60 = j := by
        intro h; exact hex (hiff.mp h)
      rw [if_neg (by simpa using hni), if_neg (by simpa using hex)]

/-! ### Facts about `record` (a finalised report) -/

theorem record_lastTimestamp_of_ne (st : DtraceState) (now : Nat) (ls : List Str)
    (h : ls ≠ []) : (record st now ls).lastTimestamp = some now := by
  have hlen : 0 < ls.length := List.length_pos.mpr h
  simp [record, finalizeReport, hlen]

theorem record_lastTimestamp_of_nil (st : DtraceState) (now : Nat) :
    (record st now []).lastTimestamp = st.lastTimestamp := by
  simp [record, finalizeReport]

theorem record_windows_of_ne (st : DtraceState) (now : Nat) (ls : List Str)
    (h : ls ≠ []) :
    (record st now ls).windows =
      (match st.lastTimestamp with
        | none => st.windows
        | some last => clearGap st.windows last now).set (now % 60)
        (some (parseLines ls)) := by
  have hlen : 0 < ls.length := List.length_pos.mpr h
  simp [record, finalizeReport, hlen, List.set_set]

theorem record_buffer (st : DtraceState) (now : Nat) (ls : List Str) :
    (record st now ls).buffer = st.buffer := by
  simp only [record, finalizeReport]
  split <;> rfl

theorem record_lines (st : DtraceState) (now : Nat) (ls : List Str) :
    (record st now ls).lines = ls := by
  simp only [record, finalizeReport]
  split <;> rfl

theorem record_fresh_windows (t0 : Nat) (ls : List Str) (h : ls ≠ []) :
    (record fresh t0 ls).windows =
      (List.replicate 60 none).set (t0 % 60) (some (parseLines ls)) := by
  rw [record_windows_of_ne _ _ _ h]
  rfl

/-- A report exactly one second after the previous one clears nothing. -/
theorem record_windows_consecutive (st : DtraceState) (L : Nat) (ls : List Str)
    (hst : st.lastTimestamp = some L) (h : ls ≠ []) :
    (record st (L + 1) ls).windows = st.windows.set ((L + 1) % 60) (some (parseLines ls)) := by
  rw [record_windows_of_ne _ _ _ h, hst]
  have hcg : clearGap st.windows L (L + 1) = st.windows := by
    unfold clearGap
    rw [if_neg (by omega)]
    simp
  show (clearGap st.windows L (L + 1)).set ((L + 1) % 60) (some (parseLines ls)) = _
  rw [hcg]

/-! ### Facts about `flush` -/

theorem aggregateSamples_none (tgt : Metrics) : aggregateSamples tgt none = tgt := rfl

theorem foldl_pair_fst {α σ β : Type} (l : List α) (f : σ × β → α → β) (p : σ × β) :
    (l.foldl (fun p a => (p.1, f p a)) p).1 = p.1 := by
  induction l generalizing p with
  | nil => rfl
  | cons a t ih => simpa using ih _

theorem foldl_pair_snd {α σ β : Type} (l : List α) (f : σ × β → α → β) (s : σ) (b : β) :
    (l.foldl (fun p a => (p.1, f p a)) (s, b)).2 = l.foldl (fun b a => f (s, b) a) b := by
  induction l generalizing b with
  | nil => rfl
  | cons a t ih => simpa using ih _

/-- The method `flush` never mutates the instance state. -/
theorem flushPair_state (st : DtraceState) (now n : Nat) : (flushPair st now n).2 = st := by
  unfold flushPair
  cases hlt : st.lastTimestamp with
  | none => rfl
  | some last => exact foldl_pair_fst _ _ _

/-- The value computed by `flush` when `lastTimestamp` is set, as a plain
fold over the scanned seconds. -/
theorem flush_eq_fold (st : DtraceState) (now n last : Nat) (h : st.lastTimestamp = some last) :
    flush st now n =
      renderHistograms
        ((List.range (((last : Int) - ((now : Int) - (n : Int)) + 1).toNat)).foldl
          (fun agg (j : Nat) =>
            aggregateSamples agg (getWindow st ((now : Int) - (n : Int) + (j : Int)))) []) := by
  unfold flush flushPair
  rw [h]
  simp only []
  congr 1
  exact foldl_pair_snd _ _ _ _

theorem flush_of_lastTimestamp_none (st : DtraceState) (now n : Nat)
    (h : st.lastTimestamp = none) : flush st now n = [] := by
  unfold flush flushPair
  rw [h]

/-- The small-gap scenario: a report at `t0`, a report at `t0 + 3`, then a
flush spanning the gap merges exactly the two recorded windows. -/
theorem flush_smallgap (t0 : Nat) (ls0 ls1 : List Str) (h0 : ls0 ≠ []) (h1 : ls1 ≠ []) :
    flush (record (record fresh t0 ls0) (t0 + 3) ls1) (t0 + 3) 3 =
      renderHistograms
        (aggregateSamples (aggregateSamples [] (some (parseLines ls0)))
          (some (parseLines ls1))) := by
  set p0 := parseLines ls0 with hp0
  set p1 := parseLines ls1 with hp1
  set st1 := record fresh t0 ls0 with hst1
  have hw1 : st1.windows = (List.replicate 60 none).set (t0 % 60) (some p0) :=
    record_fresh_windows t0 ls0 h0
  have hl1 : st1.lastTimestamp = some t0 := record_lastTimestamp_of_ne _ _ _ h0
  set st2 := record st1 (t0 + 3) ls1 with hst2
  have hl2 : st2.lastTimestamp = some (t0 + 3) := record_lastTimestamp_of_ne _ _ _ h1
  have hcg : clearGap st1.windows t0 (t0 + 3) =
      (st1.windows.set ((t0 + 1) % 60) none).set ((t0 + 2) % 60) none := by
    unfold clearGap
    rw [if_neg (by omega)]
    have h2 : t0 + 3 - t0 - 1 = 2 := by omega
    rw [h2]
    rfl
  have hw2 : st2.windows =
      ((st1.windows.set ((t0 + 1) % 60) none).set ((t0 + 2) % 60) none).set ((t0 + 3) % 60)
        (some p1) := by
    rw [hst2, record_windows_of_ne _ _ _ h1, hl1]
    show (clearGap st1.windows t0 (t0 + 3)).set ((t0 + 3) % 60) (some p1) = _
    rw [hcg]
  have hlen1 : st1.windows.length = 60 := by rw [hw1]; simp
  have hcnt : ((((t0 + 3 : Nat)) : Int) - (((t0 + 3 : Nat) : Int) - ((3 : Nat) : Int)) + 1).toNat
      = 4 := by push_cast; omega
  have hget : ∀ k : Nat, getWindow st2 (((t0 + 3 : Nat) : Int) - ((3 : Nat) : Int) + (k : Nat)) =
      st2.windows.getD ((t0 + k) % 60) none := by
    intro k
    unfold getWindow
    rw [if_pos (by push_cast; omega)]
    congr 1
    have : ((((t0 + 3 : Nat)) : Int) - ((3 : Nat) : Int) + (k : Nat)).toNat = t0 + k := by
      push_cast; omega
    rw [this]
  have hg0 : st2.windows.getD ((t0 + 0) % 60) none = some p0 := by
    rw [hw2]
    rw [getD_set_ne _ _ _ _ _ (by omega), getD_set_ne _ _ _ _ _ (by omega),
      getD_set_ne _ _ _ _ _ (by omega), hw1]
    have : (t0 + 0) % 60 = t0 % 60 := by omega
    rw [this]
    exact getD_set_self _ _ _ _ (by simp only [List.length_replicate]; omega)
  have hg1 : st2.windows.getD ((t0 + 1) % 60) none = none := by
    rw [hw2]
    rw [getD_set_ne _ _ _ _ _ (by omega), getD_set_ne _ _ _ _ _ (by omega)]
    exact getD_set_self _ _ _ _ (by simp only [List.length_set, hlen1]; omega)
  have hg2 : st2.windows.getD ((t0 + 2) % 60) none = none := by
    rw [hw2]
    rw [getD_set_ne _ _ _ _ _ (by omega)]
    exact getD_set_self _ _ _ _ (by simp only [List.length_set, hlen1]; omega)
  have hg3 : st2.windows.getD ((t0 + 3) % 60) none = some p1 := by
    rw [hw2]
    exact getD_set_self _ _ _ _ (by simp only [List.length_set, hlen1]; omega)
  rw [flush_eq_fold st2 (t0 + 3) 3 (t0 + 3) hl2, hcnt]
  have hr4 : List.range 4 = [0, 1, 2, 3] := rfl
  rw [hr4]
  simp only [List.foldl_cons, List.foldl_nil]
  rw [hget 0, hget 1, hget 2, hget 3, hg0, hg1, hg2, hg3, aggregateSamples_none,
    aggregateSamples_none]

/-- Reading any slot other than the one at `now mod 60` after a finalise
sees exactly the gap-cleared ring. -/
theorem finalizeReport_windows_getD_ne (st : DtraceState) (now j : Nat)
    (hne : j ≠ now % 60) :
    (finalizeReport now st).windows.getD j none =
      (match st.lastTimestamp with
        | none => st.windows
        | some last => clearGap st.windows last now).getD j none := by
  unfold finalizeReport
  dsimp only
  split
  · exact (getD_set_ne _ _ _ _ _ (Ne.symm hne)).trans (getD_set_ne _ _ _ _ _ (Ne.symm hne))
  · exact getD_set_ne _ _ _ _ _ (Ne.symm hne)

/-- Claim C2: When a report is finalised at second `now` with a previously
recorded `lastTimestamp = L`: if `now − L ≥ 60` every ring slot is cleared,
otherwise exactly the slots at `s mod 60` for the seconds `s` strictly
between `L` and `now` are cleared and all other slots (apart from the one at
`now mod 60`, which the store step overwrites) are untouched; consequently a
flush spanning a three-second gap merges exactly the two recorded windows,
the skipped seconds contributing nothing. -/
theorem finalize_gap_clearing (st : DtraceState) (L now : Nat)
    (hst : st.lastTimestamp = some L) (hln : L ≤ now) :
    (∀ j, j < 60 → j ≠ now % 60 →
      (finalizeReport now st).windows.getD j none =
        if 60 ≤ now - L then none
        else if ∃ s ∈ List.range now, L < s ∧ s % 60 = j then none
        else st.windows.getD j none)
    ∧ ∀ (t0 : Nat) (ls0 ls1 : List Str), ls0 ≠ [] → ls1 ≠ [] →
        flush (record (record fresh t0 ls0) (t0 + 3) ls1) (t0 + 3) 3 =
          renderHistograms
            (aggregateSamples (aggregateSamples [] (some (parseLines ls0)))
              (some (parseLines ls1))) := by
  constructor
  · intro j hj hne
    rw [finalizeReport_windows_getD_ne st now j hne]
    have hm : (match st.lastTimestamp with
        | none => st.windows
        | some last => clearGap st.windows last now) = clearGap st.windows L now := by
      rw [hst]
    rw [hm, clearGap_getD st.windows L now j hln]
  · intro t0 ls0 ls1 h0 h1
    exact flush_smallgap t0 ls0 ls1 h0 h1

/-- Witness for `finalize_gap_clearing`: a report at second 100, another at
103; slot 41 (`= 101 mod 60`) is cleared since second 101 lies strictly
between. -/
theorem finalize_gap_clearing_witness :
    (finalizeReport 103 (record fresh 100 [['=', 'm'], ['1', '|', '2']])).windows.getD 41 none =
      if 60 ≤ 103 - 100 then none
      else if ∃ s ∈ List.range 103, 100 < s ∧ s % 60 = 41 then none
      else (record fresh 100 [['=', 'm'], ['1', '|', '2']]).windows.getD 41 none :=
  (finalize_gap_clearing (record fresh 100 [['=', 'm'], ['1', '|', '2']]) 100 103
    (by decide) (by decide)).1 41 (by decide) (by decide)

/-! ### Parsing-step helpers -/

theorem matchEq_eq_none (l : Str) (h : l.head? ≠ some '=') : matchEq l = none := by
  unfold matchEq
  split
  · exact absurd rfl h
  · rfl

theorem splitOnChar_eq_single (sep : Char) (b : Str) (hb : sep ∉ b) :
    splitOnChar sep b = [b] := by
  induction b with
  | nil => rfl
  | cons c cs ih =>
    have hc : ¬(c = sep) := fun h => hb (h ▸ List.mem_cons_self c cs)
    have hcs : sep ∉ cs := fun h => hb (List.mem_cons_of_mem c h)
    unfold splitOnChar
    rw [if_neg hc, ih hcs]

theorem splitOnChar_pair (sep : Char) (a b : Str) (ha : sep ∉ a) (hb : sep ∉ b) :
    splitOnChar sep (a ++ sep :: b) = [a, b] := by
  induction a with
  | nil =>
    show splitOnChar sep (sep :: b) = [[], b]
    unfold splitOnChar
    rw [if_pos rfl, splitOnChar_eq_single sep b hb]
  | cons c cs ih =>
    have hc : ¬(c = sep) := fun h => ha (h ▸ List.mem_cons_self c cs)
    have hcs : sep ∉ cs := fun h => ha (List.mem_cons_of_mem c h)
    show splitOnChar sep (c :: (cs ++ sep :: b)) = [c :: cs, b]
    unfold splitOnChar
    rw [if_neg hc, ih hcs]

/-- A line whose count field parses to an integer contains a decimal digit
(so the source's `/\d+|\d+/` test accepts it). -/
theorem any_digit_of_jsParseInt (s : Str) (c : Int) (h : jsParseInt (some s) = some c) :
    s.any Char.isDigit = true := by
  unfold jsParseInt at h
  dsimp only at h
  set body : Str := if s.head? = some '-' ∨ s.head? = some '+' then s.tail else s with hbody
  by_cases hemp : (body.takeWhile Char.isDigit).isEmpty
  · rw [if_pos hemp] at h
    exact absurd h (by simp)
  · have hne : body.takeWhile Char.isDigit ≠ [] := by
      intro hnil
      exact hemp (by rw [hnil]; rfl)
    obtain ⟨d, hd⟩ := List.exists_mem_of_ne_nil _ hne
    have hdb : d ∈ body ∧ Char.isDigit d := by
      constructor
      · exact List.IsPrefix.subset ( List.takeWhile_prefix _) hd
      · have := List.mem_takeWhile_imp hd
        simpa using this
    have hds : d ∈ s := by
      rcases hdb with ⟨hmem, _⟩
      rw [hbody] at hmem
      by_cases hsign : s.head? = some '-' ∨ s.head? = some '+'
      · rw [if_pos hsign] at hmem
        exact List.mem_of_mem_tail hmem
      · rwa [if_neg hsign] at hmem
    exact List.any_eq_true.mpr ⟨d, hds, hdb.2⟩

/-- A `=<name>` line just moves the metric context. -/
theorem parseLinesAux_metricline (acc : Option Str × Metrics) (line : Str) (name : Str)
    (h : matchEq line = some name) : parseLinesAux acc line = (some name, acc.2) := by
  unfold parseLinesAux
  rw [h]

/-- A data line before any metric context is discarded. -/
theorem parseLinesAux_nokey (m : Metrics) (line : Str) (h : matchEq line = none) :
    parseLinesAux (none, m) line = (none, m) := by
  unfold parseLinesAux
  rw [h]

/-- A data line with no decimal digit is discarded. -/
theorem parseLinesAux_nodigit (mk : Str) (m : Metrics) (line : Str)
    (hme : matchEq line = none) (hdig : line.any Char.isDigit = false) :
    parseLinesAux (some mk, m) line = (some mk, m) := by
  unfold parseLinesAux
  rw [hme]
  simp [hdig]

/-- A data line whose count field parses to `0` is discarded. -/
theorem parseLinesAux_zero (mk : Str) (m : Metrics) (line : Str)
    (hme : matchEq line = none)
    (hcnt : jsParseInt ((splitOnChar '|' line).get? 1) = some 0) :
    parseLinesAux (some mk, m) line = (some mk, m) := by
  unfold parseLinesAux
  rw [hme]
  rw [List.get?_eq_getElem?] at hcnt
  by_cases hdig : line.any Char.isDigit
  · simp [hdig, hcnt]
  · simp [hdig]

/-- Any other digit-containing data line records a sample under the current
metric context: the text before the first `|` is the label, the parsed count
the value. -/
theorem parseLinesAux_sample (mk : Str) (m : Metrics) (line : Str)
    (hme : matchEq line = none) (hdig : line.any Char.isDigit = true)
    (hcnt : jsParseInt ((splitOnChar '|' line).get? 1) ≠ some 0) :
    parseLinesAux (some mk, m) line =
      (some mk,
        setKey m mk
          (setKey (getValD m mk []) ((splitOnChar '|' line).headD [])
            (jsParseInt ((splitOnChar '|' line).get? 1)))) := by
  unfold parseLinesAux
  rw [hme]
  rw [List.get?_eq_getElem?] at hcnt
  simp [hdig, hcnt]

/-! ### Membership facts for the association-list object model -/

theorem mem_setKey {α : Type} (m : List (Str × α)) (k : Str) (v : α) (q : Str × α)
    (h : q ∈ setKey m k v) : q = (k, v) ∨ q ∈ m := by
  unfold setKey at h
  split at h
  · obtain ⟨p, hp, hq⟩ := List.mem_map.mp h
    by_cases hpk : p.1 = k
    · rw [if_pos hpk] at hq
      exact Or.inl hq.symm
    · rw [if_neg hpk] at hq
      exact Or.inr (hq ▸ hp)
  · rcases List.mem_append.mp h with h1 | h2
    · exact Or.inr h1
    · exact Or.inl (by simpa using h2)

theorem getVal?_mem {α : Type} (m : List (Str × α)) (k : Str) (v : α)
    (h : getVal? m k = some v) : (k, v) ∈ m := by
  unfold getVal? at h
  cases hf : m.find? (fun p => p.1 = k) with
  | none => rw [hf] at h; simp at h
  | some p =>
    rw [hf] at h
    have hv : p.2 = v := by simpa using h
    have hp := List.mem_of_find?_eq_some hf
    have hpk : p.1 = k := by simpa using List.find?_some hf
    have : p = (k, v) := by
      cases p
      simp_all
    rwa [this] at hp

theorem noZeroS_setKey (s : Samples) (lab : Str) (v : JSNum) (hs : noZeroS s)
    (hv : v ≠ some 0) : noZeroS (setKey s lab v) := by
  intro q hq
  rcases mem_setKey s lab v q hq with rfl | hqs
  · simpa using hv
  · exact hs q hqs

theorem noZeroM_setKey (m : Metrics) (k : Str) (s : Samples) (hm : noZeroM m)
    (hs : noZeroS s) : noZeroM (setKey m k s) := by
  intro p hp
  rcases mem_setKey m k s p hp with rfl | hps
  · simpa using hs
  · exact hm p hps

theorem noZeroS_getValD (m : Metrics) (mk : Str) (h : noZeroM m) :
    noZeroS (getValD m mk []) := by
  unfold getValD
  cases hg : getVal? m mk with
  | none =>
    intro q hq
    simp at hq
  | some s => exact h (mk, s) (getVal?_mem m mk s hg)

/-- One parsing step preserves zero-freedom of the window under
construction. -/
theorem noZeroM_parseLinesAux (acc : Option Str × Metrics) (line : Str)
    (h : noZeroM acc.2) : noZeroM (parseLinesAux acc line).2 := by
  cases hme : matchEq line with
  | some name => rw [parseLinesAux_metricline acc line name hme]; exact h
  | none =>
    obtain ⟨ok, m⟩ := acc
    cases ok with
    | none => rw [parseLinesAux_nokey m line hme]; exact h
    | some mk =>
      by_cases hd : line.any Char.isDigit
      · by_cases hz : jsParseInt ((splitOnChar '|' line).get? 1) = some 0
        · rw [parseLinesAux_zero mk m line hme hz]; exact h
        · rw [parseLinesAux_sample mk m line hme hd hz]
          exact noZeroM_setKey m mk _ h
            (noZeroS_setKey _ _ _ (noZeroS_getValD m mk h) hz)
      · rw [parseLinesAux_nodigit mk m line hme (by simpa using hd)]; exact h

/-- Every parsed window is zero-free. -/
theorem noZeroM_parseLines (lines : List Str) : noZeroM (parseLines lines) := by
  suffices hgen : ∀ acc : Option Str × Metrics, noZeroM acc.2 →
      noZeroM ((lines.foldl parseLinesAux acc).2) by
    exact hgen (none, []) (fun p hp => absurd hp (List.not_mem_nil p))
  induction lines with
  | nil => intro acc h; exact h
  | cons l t ih => intro acc h; exact ih _ (noZeroM_parseLinesAux acc l h)

/-! ### Finalisation store/skip lemmas -/

theorem matchClear_length (st : DtraceState) (now : Nat) (hw : st.windows.length = 60) :
    (match st.lastTimestamp with
      | none => st.windows
      | some last => clearGap st.windows last now).length = 60 := by
  cases h : st.lastTimestamp with
  | none => exact hw
  | some last => exact clearGap_length _ _ _ hw

theorem finalizeReport_nil_lastTimestamp (st : DtraceState) (now : Nat) (h : st.lines = []) :
    (finalizeReport now st).lastTimestamp = st.lastTimestamp := by
  unfold finalizeReport
  dsimp only
  rw [if_neg (by simp [h])]

theorem finalizeReport_nil_slot (st : DtraceState) (now : Nat) (h : st.lines = [])
    (hw : st.windows.length = 60) :
    (finalizeReport now st).windows.getD (now % 60) none = none := by
  unfold finalizeReport
  dsimp only
  rw [if_neg (by simp [h])]
  exact getD_set_self _ _ _ _ (by rw [matchClear_length st now hw]; omega)

theorem finalizeReport_ne_lastTimestamp (st : DtraceState) (now : Nat) (h : st.lines ≠ []) :
    (finalizeReport now st).lastTimestamp = some now := by
  unfold finalizeReport
  dsimp only
  rw [if_pos (List.length_pos.mpr h)]

theorem finalizeReport_ne_slot (st : DtraceState) (now : Nat) (h : st.lines ≠ [])
    (hw : st.windows.length = 60) :
    (finalizeReport now st).windows.getD (now % 60) none = some (parseLines st.lines) := by
  unfold finalizeReport
  dsimp only
  rw [if_pos (List.length_pos.mpr h)]
  show (((match st.lastTimestamp with
      | none => st.windows
      | some last => clearGap st.windows last now).set (now % 60) none).set (now % 60)
        (some (parseLines st.lines))).getD (now % 60) none = _
  rw [List.set_set]
  exact getD_set_self _ _ _ _ (by rw [matchClear_length st now hw]; omega)

/-- Claim C3, counterexample: A report whose single accumulated line `x` parses
to an *empty* metrics mapping nevertheless stores a window and advances
`lastTimestamp` (from 100 to 101), because the source gates the store on
`self.lines.length > 0`, not on the metrics mapping being non-empty. -/
theorem empty_metrics_advances_lastTimestamp_cex :
    parseLines [['x']] = [] ∧
      (record (record fresh 100 [['=', 'm'], ['1', '|', '2']]) 101 [['x']]).lastTimestamp ≠
        (record fresh 100 [['=', 'm'], ['1', '|', '2']]).lastTimestamp ∧
      (record (record fresh 100 [['=', 'm'], ['1', '|', '2']]) 101 [['x']]).windows.getD
          (101 % 60) none = some [] := by
  refine ⟨by decide, by decide, by decide⟩

/-- Claim C3, amended: A finalisation stores a window (possibly with an empty
metrics mapping) and advances `lastTimestamp` exactly when at least one data
line was accumulated; a finalisation with no accumulated lines leaves the
slot at `now mod 60` cleared and `lastTimestamp` unmoved, and a cleared
(`null`) slot contributes nothing to any flush aggregate. -/
theorem finalize_store_conditions (st : DtraceState) (now : Nat)
    (hw : st.windows.length = 60) :
    (st.lines = [] →
      (finalizeReport now st).lastTimestamp = st.lastTimestamp ∧
        (finalizeReport now st).windows.getD (now % 60) none = none) ∧
    (st.lines ≠ [] →
      (finalizeReport now st).lastTimestamp = some now ∧
        (finalizeReport now st).windows.getD (now % 60) none =
          some (parseLines st.lines)) ∧
    ∀ a : Metrics, aggregateSamples a none = a := by
  refine ⟨fun h => ⟨finalizeReport_nil_lastTimestamp st now h,
      finalizeReport_nil_slot st now h hw⟩,
    fun h => ⟨finalizeReport_ne_lastTimestamp st now h,
      finalizeReport_ne_slot st now h hw⟩,
    fun a => rfl⟩

/-- Witness for `finalize_store_conditions` at the freshly started state
(no accumulated lines) and second 77. -/
theorem finalize_store_conditions_witness :
    (finalizeReport 77 fresh).lastTimestamp = fresh.lastTimestamp ∧
      (finalizeReport 77 fresh).windows.getD (77 % 60) none = none :=
  (finalize_store_conditions fresh 77 (by decide)).1 rfl

/-- Claim C4, counterexample: The line `abc1` contains no `|` — it is not of
the `<label>|<count>` shape — yet, with a metric context set, it is recorded
as a sample: label `abc1`, count `NaN` (`parseInt` of a missing field). -/
theorem nonpipe_line_recorded_cex :
    ('|' ∉ (['a', 'b', 'c', '1'] : Str)) ∧
      parseLines [['=', 'm'], ['a', 'b', 'c', '1']] =
        [(['m'], [(['a', 'b', 'c', '1'], none)])] := by
  refine ⟨by decide, by decide⟩

/-- Claim C4, amended: While a metric context is set, a sample is recorded
for every data line containing at least one decimal digit whose parsed count
(`parseInt` of the text after the first `|`, `NaN` when missing or
unparseable) is not exactly `0`; the label is the text before the first `|`
(the whole line when there is none).  Discarded are precisely: data lines
before any metric context, lines with no decimal digit, and lines whose
parsed count is `0`. -/
theorem data_line_recording (mk : Str) (m : Metrics) (line : Str)
    (hme : matchEq line = none) :
    parseLinesAux (none, m) line = (none, m) ∧
    (line.any Char.isDigit = false → parseLinesAux (some mk, m) line = (some mk, m)) ∧
    (jsParseInt ((splitOnChar '|' line).get? 1) = some 0 →
      parseLinesAux (some mk, m) line = (some mk, m)) ∧
    (line.any Char.isDigit = true →
      jsParseInt ((splitOnChar '|' line).get? 1) ≠ some 0 →
      parseLinesAux (some mk, m) line =
        (some mk,
          setKey m mk
            (setKey (getValD m mk []) ((splitOnChar '|' line).headD [])
              (jsParseInt ((splitOnChar '|' line).get? 1))))) :=
  ⟨parseLinesAux_nokey m line hme,
   fun hd => parseLinesAux_nodigit mk m line hme hd,
   fun hz => parseLinesAux_zero mk m line hme hz,
   fun hd hz => parseLinesAux_sample mk m line hme hd hz⟩

/-- Witness for `data_line_recording` on the well-formed sample line `1|3`. -/
theorem data_line_recording_witness :
    parseLinesAux (some ['m'], []) ['1', '|', '3'] =
      (some ['m'],
        setKey [] ['m']
          (setKey (getValD [] ['m'] []) ((splitOnChar '|' ['1', '|', '3']).headD [])
            (jsParseInt ((splitOnChar '|' ['1', '|', '3']).get? 1)))) :=
  (data_line_recording ['m'] [] ['1', '|', '3'] (by decide)).2.2.2 (by decide) (by decide)

/-- Claim C5, counterexample: The sample line `1|-2` stores the negative count
`-2`, violating the non-negativity half of the claimed invariant. -/
theorem negative_count_stored_cex :
    lookupSample (parseLines [['=', 'm'], ['1', '|', '-', '2']]) ['m'] ['1'] =
        some (some (-2)) ∧
      (-2 : Int) < 0 := by
  refine ⟨by decide, by decide⟩

/-- Claim C5, amended: No bucket with stored count exactly `0` ever appears
in a parsed window — in particular `5|0` is a no-op on any parser state —
but stored counts need not be non-negative (see the counterexample). -/
theorem no_zero_count_bucket_stored (lines : List Str) (mk lab : Str) :
    lookupSample (parseLines lines) mk lab ≠ some (some 0) ∧
      ∀ acc : Option Str × Metrics, parseLinesAux acc ['5', '|', '0'] = acc := by
  constructor
  · intro hcontra
    unfold lookupSample at hcontra
    cases hg : getVal? (parseLines lines) mk with
    | none => rw [hg] at hcontra; simp at hcontra
    | some s =>
      rw [hg] at hcontra
      have hs : getVal? s lab = some (some 0) := by simpa using hcontra
      exact noZeroM_parseLines lines (mk, s) (getVal?_mem _ _ _ hg) (lab, some 0)
        (getVal?_mem _ _ _ hs) rfl
  · intro acc
    obtain ⟨ok, m⟩ := acc
    cases ok with
    | none => rfl
    | some mk' => rfl

/-- Witness for `no_zero_count_bucket_stored`: after a report containing
`5|0`, the bucket is genuinely absent. -/
theorem no_zero_count_bucket_witness :
    lookupSample (parseLines [['=', 'm'], ['5', '|', '0']]) ['m'] ['5'] ≠ some (some 0) :=
  (no_zero_count_bucket_stored [['=', 'm'], ['5', '|', '0']] ['m'] ['5']).1

/-- Claim C10: Within a single report, a second sample line for the same
metric and the same latency label *replaces* the earlier count (plain
assignment), so duplicate labels are never summed: the stored window keeps
only the later count `c2`. -/
theorem duplicate_label_replaces (mk lab s1 s2 : Str) (c1 c2 : Int)
    (hmk : mk ≠ []) (hlabh : lab.head? ≠ some '=') (hlab : '|' ∉ lab)
    (hs1 : '|' ∉ s1) (hs2 : '|' ∉ s2)
    (hp1 : jsParseInt (some s1) = some c1) (hc1 : c1 ≠ 0)
    (hp2 : jsParseInt (some s2) = some c2) (hc2 : c2 ≠ 0) :
    parseLines ['=' :: mk, lab ++ '|' :: s1, lab ++ '|' :: s2] =
      [(mk, [(lab, some c2)])] := by
  have hhead : ∀ s : Str, (lab ++ '|' :: s).head? ≠ some '=' := by
    intro s
    cases lab with
    | nil =>
      intro hcon
      exact absurd (Option.some.inj hcon) (by decide)
    | cons a t =>
      intro hcon
      exact hlabh hcon
  have hme1 : matchEq (lab ++ '|' :: s1) = none := matchEq_eq_none _ (hhead s1)
  have hme2 : matchEq (lab ++ '|' :: s2) = none := matchEq_eq_none _ (hhead s2)
  have hsp1 : splitOnChar '|' (lab ++ '|' :: s1) = [lab, s1] :=
    splitOnChar_pair '|' lab s1 hlab hs1
  have hsp2 : splitOnChar '|' (lab ++ '|' :: s2) = [lab, s2] :=
    splitOnChar_pair '|' lab s2 hlab hs2
  have hd1 : (lab ++ '|' :: s1).any Char.isDigit = true := by
    have hs := any_digit_of_jsParseInt s1 c1 hp1
    rw [List.any_append]
    simp [List.any_cons, hs]
  have hd2 : (lab ++ '|' :: s2).any Char.isDigit = true := by
    have hs := any_digit_of_jsParseInt s2 c2 hp2
    rw [List.any_append]
    simp [List.any_cons, hs]
  have hcnt1 : jsParseInt ((splitOnChar '|' (lab ++ '|' :: s1)).get? 1) = some c1 := by
    rw [hsp1]; exact hp1
  have hcnt2 : jsParseInt ((splitOnChar '|' (lab ++ '|' :: s2)).get? 1) = some c2 := by
    rw [hsp2]; exact hp2
  have hne1 : jsParseInt ((splitOnChar '|' (lab ++ '|' :: s1)).get? 1) ≠ some 0 := by
    rw [hcnt1]; simp [hc1]
  have hne2 : jsParseInt ((splitOnChar '|' (lab ++ '|' :: s2)).get? 1) ≠ some 0 := by
    rw [hcnt2]; simp [hc2]
  have h0 : parseLinesAux (none, []) ('=' :: mk) = (some mk, []) := by
    have hmeq : matchEq ('=' :: mk) = some mk := by
      cases mk with
      | nil => exact absurd rfl hmk
      | cons a t => rfl
    exact parseLinesAux_metricline _ _ _ hmeq
  have hstep2 : parseLinesAux (some mk, []) (lab ++ '|' :: s1) =
      (some mk, [(mk, [(lab, some c1)])]) := by
    rw [parseLinesAux_sample mk [] _ hme1 hd1 hne1, hsp1]
    have e1 : (([lab, s1] : List Str).headD []) = lab := rfl
    have e2 : (([lab, s1] : List Str).get? 1) = some s1 := rfl
    rw [e1, e2, hp1]
    rfl
  have hstep3 : parseLinesAux (some mk, [(mk, [(lab, some c1)])]) (lab ++ '|' :: s2) =
      (some mk, [(mk, [(lab, some c2)])]) := by
    rw [parseLinesAux_sample mk _ _ hme2 hd2 hne2, hsp2]
    have e1 : (([lab, s2] : List Str).headD []) = lab := rfl
    have e2 : (([lab, s2] : List Str).get? 1) = some s2 := rfl
    rw [e1, e2, hp2]
    simp [getValD, getVal?, setKey, hasKey]
  unfold parseLines
  simp only [List.foldl_cons, List.foldl_nil]
  rw [h0, hstep2, hstep3]

/-- Witness for `duplicate_label_replaces`: `7|2` then `7|3` inside one
report leaves only count 3 for bucket `7`. -/
theorem duplicate_label_replaces_witness :
    parseLines ['=' :: ['m'], ['7'] ++ '|' :: ['2'], ['7'] ++ '|' :: ['3']] =
      [(['m'], [(['7'], some 3)])] :=
  duplicate_label_replaces ['m'] ['7'] ['2'] ['3'] 2 3 (by decide) (by decide) (by decide)
    (by decide) (by decide) (by decide) (by decide) (by decide) (by decide)

/-- Claim C7: `flush` is a pure read: the state component threaded through
`flushPair` comes back unchanged (the source writes only its local
`aggregates`/`histograms` objects), so an immediately repeated call with the
same argument at the same clock second returns the identical result. -/
theorem flush_pure_idempotent (st : DtraceState) (now n : Nat) :
    (flushPair st now n).2 = st ∧
      (flushPair (flushPair st now n).2 now n).1 = (flushPair st now n).1 := by
  refine ⟨flushPair_state st now n, ?_⟩
  rw [flushPair_state st now n]

/-- A flush over a span in which every ring slot is `null` yields the empty
mapping. -/
theorem flush_empty_windows (st : DtraceState) (now n : Nat)
    (hw : ∀ j, j < 60 → st.windows.getD j none = none) : flush st now n = [] := by
  cases hlt : st.lastTimestamp with
  | none => exact flush_of_lastTimestamp_none st now n hlt
  | some last =>
    rw [flush_eq_fold st now n last hlt]
    have hgw : ∀ i : Int, getWindow st i = none := by
      intro i
      unfold getWindow
      split
      · exact hw _ (Nat.mod_lt _ (by norm_num))
      · rfl
    have hfold : ∀ (rng : List Nat) (a : Metrics),
        rng.foldl
          (fun agg (j : Nat) =>
            aggregateSamples agg (getWindow st ((now : Int) - (n : Int) + (j : Int)))) a = a := by
      intro rng
      induction rng with
      | nil => intro a; rfl
      | cons x t ih =>
        intro a
        rw [List.foldl_cons, hgw, aggregateSamples_none]
        exact ih a
    rw [hfold]
    rfl

/-- Claim C9: Constructing with a `null`/`undefined` script throws
synchronously; any present script constructs successfully; and a flush whose
scanned range holds no data is not an error — it returns the empty mapping. -/
theorem constructor_error_and_empty_flush :
    (∃ msg : Str, mkDtrace none = .error msg) ∧
    (∀ s : Str, ∃ d : Dtrace, mkDtrace (some s) = .ok d) ∧
    (∀ (st : DtraceState) (now n : Nat),
      (∀ j, j < 60 → st.windows.getD j none = none) → flush st now n = []) :=
  ⟨⟨_, rfl⟩, fun _ => ⟨_, rfl⟩, fun st now n hw => flush_empty_windows st now n hw⟩

/-- Witness for `constructor_error_and_empty_flush`: flushing the freshly
started (all-`null`) ring returns the empty mapping. -/
theorem constructor_error_and_empty_flush_witness : flush fresh 100 60 = [] :=
  constructor_error_and_empty_flush.2.2 fresh 100 60 (fun j _ => getD_replicate_none 60 j)

/-- Every metric value `flush` returns is tagged `_type = 'n'`. -/
theorem flush_mem_type (st : DtraceState) (now n : Nat) (p : Str × HistValue)
    (hp : p ∈ flush st now n) : p.2._type = ['n'] := by
  cases hlt : st.lastTimestamp with
  | none =>
    rw [flush_of_lastTimestamp_none st now n hlt] at hp
    exact absurd hp (List.not_mem_nil p)
  | some last =>
    rw [flush_eq_fold st now n last hlt] at hp
    obtain ⟨q, _, rfl⟩ := List.mem_map.mp hp
    rfl

/-- Claim C8, counterexample: For the end-to-end scenario at `T = 1000`, the
flush value is *not* `{ type: "histogram", buckets: ["H[10]=2", "H[20]=1"] }`
at any time `≥ T`: the discriminator is the key `_type` with value `'n'`
(not `"histogram"`), and at `now = T` the 61-second scan `T−60 … T` wraps
the 60-slot ring, so the single stored window is even counted twice. -/
theorem flush_output_format_cex :
    flush c8State 1000 60 ≠
        [(("read").toList,
          ⟨("histogram").toList, [("H[10]=2").toList, ("H[20]=1").toList]⟩)] ∧
      flush c8State 1001 60 ≠
        [(("read").toList,
          ⟨("histogram").toList, [("H[10]=2").toList, ("H[20]=1").toList]⟩)] := by
  refine ⟨by decide, by decide⟩

/-- Claim C8, amended: `flush` returns, per metric, an object with keys
`_type` and `_value`, where `_type` is the string `'n'` and `_value` the
list of `H[<label>]=<count>` strings; for the scenario delivered at
`T = 1000`: at `now = T` the wrap-around doubles the counts
(`H[10]=4`, `H[20]=2`); for `T + 1 ≤ now ≤ T + 60` the result is
`H[10]=2`, `H[20]=1`; for `now > T + 60` it is empty.  Every entry any
flush ever returns is tagged `_type = 'n'`. -/
theorem flush_output_format :
    flush c8State 1000 60 =
        [(("read").toList, ⟨['n'], [("H[10]=4").toList, ("H[20]=2").toList]⟩)] ∧
      flush c8State 1001 60 =
        [(("read").toList, ⟨['n'], [("H[10]=2").toList, ("H[20]=1").toList]⟩)] ∧
      flush c8State 1060 60 =
        [(("read").toList, ⟨['n'], [("H[10]=2").toList, ("H[20]=1").toList]⟩)] ∧
      flush c8State 1061 60 = [] ∧
      ∀ (st : DtraceState) (now n : Nat) (p : Str × HistValue),
        p ∈ flush st now n → p.2._type = ['n'] := by
  refine ⟨by decide, by decide, by decide, by decide, flush_mem_type⟩

/-- Witness for `flush_output_format`: the scenario's own entry is tagged
`'n'`. -/
theorem flush_output_format_witness :
    ((("read").toList,
        (⟨['n'], [("H[10]=2").toList, ("H[20]=1").toList]⟩ : HistValue)) :
      Str × HistValue).2._type = ['n'] :=
  flush_output_format.2.2.2.2 c8State 1001 60 _ (by decide)

/-! ### Framer: splitting lemmas -/

theorem splitOnChar_ne_nil (sep : Char) (s : Str) : splitOnChar sep s ≠ [] := by
  cases s with
  | nil => simp [splitOnChar]
  | cons c cs =>
    unfold splitOnChar
    split
    · simp
    · split <;> simp

theorem splitOnChar_cons_sep (sep : Char) (cs : Str) :
    splitOnChar sep (sep :: cs) = [] :: splitOnChar sep cs := by
  simp [splitOnChar]

theorem splitOnChar_cons_ne (sep c : Char) (cs : Str) (h : ¬(c = sep)) :
    splitOnChar sep (c :: cs) = consHead [c] (splitOnChar sep cs) := by
  simp only [splitOnChar]
  rw [if_neg h]
  cases hsp : splitOnChar sep cs with
  | nil => rfl
  | cons a t => rfl

theorem consHead_consHead (a b : Str) (z : List Str) :
    consHead a (consHead b z) = consHead (a ++ b) z := by
  cases z <;> simp [consHead]

theorem sep_not_mem_splitOnChar (sep : Char) (s : Str) :
    ∀ seg ∈ splitOnChar sep s, sep ∉ seg := by
  induction s with
  | nil =>
    intro seg hseg
    simp [splitOnChar] at hseg
    simp [hseg]
  | cons c cs ih =>
    intro seg hseg
    by_cases hc : c = sep
    · subst hc
      rw [splitOnChar_cons_sep] at hseg
      rcases List.mem_cons.mp hseg with rfl | hseg
      · simp
      · exact ih seg hseg
    · rw [splitOnChar_cons_ne sep c cs hc] at hseg
      obtain ⟨h, t, hht⟩ := List.exists_cons_of_ne_nil (splitOnChar_ne_nil sep cs)
      rw [hht] at hseg
      simp only [consHead] at hseg
      rcases List.mem_cons.mp hseg with rfl | hseg
      · intro hmem
        rcases List.mem_cons.mp hmem with rfl | hmem
        · exact hc rfl
        · exact ih h (by rw [hht]; exact List.mem_cons_self h t) (by simpa using hmem)
      · exact ih seg (by rw [hht]; exact List.mem_cons_of_mem h hseg)

theorem splitOnChar_append (sep : Char) (x y : Str) :
    splitOnChar sep (x ++ y) =
      (splitOnChar sep x).dropLast ++
        consHead ((splitOnChar sep x).getLastD []) (splitOnChar sep y) := by
  induction x with
  | nil =>
    obtain ⟨h, t, hht⟩ := List.exists_cons_of_ne_nil (splitOnChar_ne_nil sep y)
    simp [splitOnChar, hht, consHead]
  | cons c cs ih =>
    by_cases hc : c = sep
    · rw [hc, List.cons_append, splitOnChar_cons_sep, splitOnChar_cons_sep, ih]
      obtain ⟨h, t, hht⟩ := List.exists_cons_of_ne_nil (splitOnChar_ne_nil sep cs)
      rw [hht]
      simp [List.dropLast_cons₂, List.getLastD_eq_getLast?, List.getLast?_cons_cons]
    · rw [List.cons_append, splitOnChar_cons_ne sep c _ hc, splitOnChar_cons_ne sep c cs hc,
        ih]
      obtain ⟨h, t, hht⟩ := List.exists_cons_of_ne_nil (splitOnChar_ne_nil sep cs)
      rw [hht]
      rcases t with _ | ⟨h2, t2⟩
      · rcases hy : splitOnChar sep y with _ | ⟨a, b⟩
        · simp [consHead, List.getLastD_eq_getLast?]
        · simp [consHead, List.getLastD_eq_getLast?]
      · simp [consHead, List.dropLast_cons₂, List.getLastD_eq_getLast?,
          List.getLast?_cons_cons]

theorem consHead_eq_split (sep : Char) (p y : Str) (hp : sep ∉ p) :
    consHead p (splitOnChar sep y) = splitOnChar sep (p ++ y) := by
  rw [splitOnChar_append, splitOnChar_eq_single sep p hp]
  rfl

/-- The new pending buffer after one chunk is always the segment after the
last newline of `buffer ++ chunk`. -/
theorem frameChunk_buffer (buf c : Str) :
    (frameChunk buf c).1 = (splitOnChar '\n' (buf ++ c)).getLastD [] := by
  unfold frameChunk
  dsimp only
  rw [List.getLastD_eq_getLast?]
  split
  · next h => rw [h]; rfl
  · rfl

/-- The non-empty lines a chunk emits are exactly the non-empty segments
before the last newline of `buffer ++ chunk` (the trailing empty segment the
source also processes is filtered out on both sides). -/
theorem frameChunk_emitted (buf c : Str) :
    (frameChunk buf c).2.filter (fun l => !l.isEmpty) =
      ((splitOnChar '\n' (buf ++ c)).dropLast).filter (fun l => !l.isEmpty) := by
  unfold frameChunk
  dsimp only
  split
  · next h =>
    have hsegs : splitOnChar '\n' (buf ++ c) =
        (splitOnChar '\n' (buf ++ c)).dropLast ++ [[]] :=
      (List.dropLast_append_getLast? _ h).symm
    conv_lhs => rw [hsegs]
    rw [List.filter_append]
    simp
  · rfl

theorem sep_not_mem_getLastD (sep : Char) (s : Str) :
    sep ∉ (splitOnChar sep s).getLastD [] := by
  have hne := splitOnChar_ne_nil sep s
  rw [List.getLastD_eq_getLast?, List.getLast?_eq_getLast _ hne]
  exact sep_not_mem_splitOnChar sep s _ (List.getLast_mem hne)

/-- The framer invariant: over any chunk sequence, the pending buffer is the
text after the last newline of the concatenation, and the non-empty emitted
lines are the non-empty segments before it. -/
theorem frameAll_buffer_emitted (cs : List Str) : ∀ buf : Str, '\n' ∉ buf →
    (frameAll buf cs).1 = (splitOnChar '\n' (buf ++ cs.flatten)).getLastD [] ∧
      (frameAll buf cs).2.filter (fun l => !l.isEmpty) =
        ((splitOnChar '\n' (buf ++ cs.flatten)).dropLast).filter (fun l => !l.isEmpty) := by
  induction cs with
  | nil =>
    intro buf hb
    refine ⟨?_, ?_⟩
    · show buf = (splitOnChar '\n' (buf ++ List.flatten [])).getLastD []
      rw [List.flatten_nil, List.append_nil, splitOnChar_eq_single '\n' buf hb]
      rfl
    · show List.filter _ [] = _
      rw [List.flatten_nil, List.append_nil, splitOnChar_eq_single '\n' buf hb]
      rfl
  | cons c t ih =>
    intro buf hb
    have hlast : '\n' ∉ (splitOnChar '\n' (buf ++ c)).getLastD [] :=
      sep_not_mem_getLastD '\n' (buf ++ c)
    have hb1 : '\n' ∉ (frameChunk buf c).1 := by
      rw [frameChunk_buffer]
      exact hlast
    obtain ⟨ih1, ih2⟩ := ih (frameChunk buf c).1 hb1
    have hkey : splitOnChar '\n' (buf ++ (c :: t).flatten) =
        (splitOnChar '\n' (buf ++ c)).dropLast ++
          splitOnChar '\n' ((frameChunk buf c).1 ++ t.flatten) := by
      rw [List.flatten_cons, ← List.append_assoc, splitOnChar_append '\n' (buf ++ c),
        frameChunk_buffer, consHead_eq_split '\n' _ _ hlast]
    refine ⟨?_, ?_⟩
    · show (frameAll (frameChunk buf c).1 t).1 = _
      rw [ih1, hkey, List.getLastD_eq_getLast?, List.getLastD_eq_getLast?,
        List.getLast?_append_of_ne_nil _ (splitOnChar_ne_nil _ _)]
    · show ((frameChunk buf c).2 ++ (frameAll (frameChunk buf c).1 t).2).filter _ = _
      rw [List.filter_append, frameChunk_emitted, ih2, hkey,
        List.dropLast_append_of_ne_nil _ (splitOnChar_ne_nil _ _), List.filter_append]

/-- Claim C6, counterexample: Line framing is *not* chunk-boundary-independent:
a chunk ending in a newline also processes the trailing empty segment as a
line, so `"a\n" · "b\n"` decodes the line sequence `a, ε, b, ε` while the
concatenation decodes `a, b, ε`; worse, `">START\n" · ">END\n"` stores a
report (the stray empty line makes `self.lines` non-empty) while the
concatenation does not, so even `lastTimestamp` diverges. -/
theorem framing_chunk_dependent_cex :
    (handleChunks 100 fresh [['a', '\n'], ['b', '\n']]).lines ≠
        (handleChunks 100 fresh [['a', '\n', 'b', '\n']]).lines ∧
      (handleChunks 100 fresh [(">START\n").toList, (">END\n").toList]).lastTimestamp ≠
        (handleChunks 100 fresh [(">START\n>END\n").toList]).lastTimestamp := by
  refine ⟨by decide, by decide⟩

/-- Claim C6, amended: Up to the spurious empty lines (one per chunk ending
in a newline), framing is chunk-boundary-independent: the sequence of
*non-empty* decoded lines equals that of the one-chunk delivery, and the
pending buffer after any chunk sequence is exactly the trailing segment
after the last newline of the concatenation. -/
theorem framer_nonempty_chunk_independent (cs : List Str) :
    (frameAll [] cs).2.filter (fun l => !l.isEmpty) =
        (frameAll [] [cs.flatten]).2.filter (fun l => !l.isEmpty) ∧
      (frameAll [] cs).1 = (splitOnChar '\n' cs.flatten).getLastD [] ∧
      (frameAll [] [cs.flatten]).1 = (splitOnChar '\n' cs.flatten).getLastD [] := by
  have h1 := frameAll_buffer_emitted cs [] (by simp)
  have h2 := frameAll_buffer_emitted [cs.flatten] [] (by simp)
  rw [List.flatten_cons, List.flatten_nil, List.append_nil] at h2
  simp only [List.nil_append] at h1 h2
  exact ⟨h1.2.trans h2.2.symm, h1.1, h2.1⟩

/-! ### Consecutive-report characterisation (for the flush/last-windows law) -/

theorem recSeq_append (st : DtraceState) (t0 : Nat) (a b : List (List Str)) :
    recSeq st t0 (a ++ b) = recSeq (recSeq st t0 a) (t0 + a.length) b := by
  induction a generalizing st t0 with
  | nil => simp [recSeq]
  | cons x xs ih =>
    show recSeq (record st t0 x) (t0 + 1) (xs ++ b) =
      recSeq (recSeq (record st t0 x) (t0 + 1) xs) (t0 + (x :: xs).length) b
    rw [ih]
    congr 1
    simp
    omega

/-- After a non-empty run of consecutive reports starting at `t0 ≥ 60`, the
cursor sits at the last second, and the slot for "`d` seconds ago" holds the
`d`-th-from-last report when `d` is within both the run and the ring, and
`null` otherwise. -/
theorem recSeq_spec (lss : List (List Str)) : ∀ (ls : List Str) (t0 : Nat), 60 ≤ t0 →
    ls ≠ [] → (∀ l ∈ lss, l ≠ []) →
    (recSeq fresh t0 (lss ++ [ls])).lastTimestamp = some (t0 + lss.length) ∧
    (recSeq fresh t0 (lss ++ [ls])).windows.length = 60 ∧
    ∀ d, d < 60 →
      (recSeq fresh t0 (lss ++ [ls])).windows.getD ((t0 + lss.length - d) % 60) none =
        if d < lss.length + 1 then
          some (parseLines ((lss ++ [ls]).getD (lss.length - d) []))
        else none := by
  induction lss using List.reverseRecOn with
  | nil =>
    intro ls t0 ht0 hls _
    rw [show recSeq fresh t0 ([] ++ [ls]) = record fresh t0 ls from rfl]
    have hlast : (record fresh t0 ls).lastTimestamp = some t0 :=
      record_lastTimestamp_of_ne _ _ _ hls
    have hwin : (record fresh t0 ls).windows =
        (List.replicate 60 none).set (t0 % 60) (some (parseLines ls)) :=
      record_fresh_windows t0 ls hls
    refine ⟨by simpa using hlast, by rw [hwin]; simp, ?_⟩
    intro d hd
    by_cases hd0 : d = 0
    · subst hd0
      simp only [List.length_nil, Nat.add_zero, Nat.sub_zero, List.nil_append]
      rw [hwin, if_pos (by omega)]
      exact getD_set_self _ _ _ _ (by simp only [List.length_replicate]; omega)
    · simp only [List.length_nil, Nat.add_zero, List.nil_append]
      rw [if_neg (by omega), hwin,
        getD_set_ne _ _ _ _ _ (by
          have h1 : t0 % 60 < 60 := Nat.mod_lt _ (by norm_num)
          have h2 : (t0 - d) % 60 < 60 := Nat.mod_lt _ (by norm_num)
          omega),
        getD_replicate_none]
  | append_singleton lss' l2 ih =>
    intro ls t0 ht0 hls hmem
    have hl2 : l2 ≠ [] := hmem l2 (by simp)
    have hmem' : ∀ l ∈ lss', l ≠ [] := fun l hl => hmem l (by simp [hl])
    obtain ⟨ihl, ihw, ihs⟩ := ih l2 t0 ht0 hl2 hmem'
    have hrec : recSeq fresh t0 ((lss' ++ [l2]) ++ [ls]) =
        record (recSeq fresh t0 (lss' ++ [l2])) (t0 + lss'.length + 1) ls := by
      rw [recSeq_append]
      rw [show (lss' ++ [l2]).length = lss'.length + 1 from by simp]
      show record (recSeq fresh t0 (lss' ++ [l2])) (t0 + (lss'.length + 1)) ls = _
      rw [show t0 + (lss'.length + 1) = t0 + lss'.length + 1 from by omega]
    set st' := recSeq fresh t0 (lss' ++ [l2]) with hst'
    have hwnew : (record st' (t0 + lss'.length + 1) ls).windows =
        st'.windows.set ((t0 + lss'.length + 1) % 60) (some (parseLines ls)) :=
      record_windows_consecutive st' (t0 + lss'.length) ls ihl hls
    refine ⟨?_, ?_, ?_⟩
    · rw [hrec, record_lastTimestamp_of_ne _ _ _ hls]
      simp
      omega
    · rw [hrec, hwnew]
      simp [ihw]
    · intro d hd
      rw [hrec, hwnew]
      have hlen : (lss' ++ [l2]).length = lss'.length + 1 := by simp
      by_cases hd0 : d = 0
      · subst hd0
        rw [show t0 + (lss' ++ [l2]).length - 0 = t0 + lss'.length + 1 from by
          simp; omega]
        rw [getD_set_self _ _ _ _ (by rw [ihw]; omega)]
        rw [if_pos (by omega)]
        rw [show (lss' ++ [l2]).length - 0 = (lss' ++ [l2]).length from by omega]
        rw [show ((lss' ++ [l2]) ++ [ls]).getD (lss' ++ [l2]).length [] = ls from by
          rw [List.getD_eq_getElem?_getD, List.getElem?_append_right (Nat.le_refl _),
            Nat.sub_self]
          rfl]
      · have hd1 : 1 ≤ d := by omega
        have hidx : t0 + (lss' ++ [l2]).length - d = t0 + lss'.length - (d - 1) := by
          simp
          omega
        rw [hidx]
        rw [getD_set_ne _ _ _ _ _ (by
          have h1 : (t0 + lss'.length + 1) % 60 < 60 := Nat.mod_lt _ (by norm_num)
          have h2 : (t0 + lss'.length - (d - 1)) % 60 < 60 := Nat.mod_lt _ (by norm_num)
          have he : t0 + lss'.length + 1 - (t0 + lss'.length - (d - 1)) = d := by omega
          omega)]
        rw [ihs (d - 1) (by omega)]
        by_cases hdk : d - 1 < lss'.length + 1
        · rw [if_pos hdk,
            if_pos (by simp only [List.length_append, List.length_singleton]; omega)]
          rw [show ((lss' ++ [l2]) ++ [ls]).getD ((lss' ++ [l2]).length - d) [] =
              (lss' ++ [l2]).getD ((lss' ++ [l2]).length - d) [] from
            List.getD_append _ _ _ _ (by simp; omega)]
          rw [show (lss' ++ [l2]).length - d = lss'.length - (d - 1) from by simp; omega]
        · rw [if_neg hdk, if_neg (by simp; omega)]

theorem foldl_aggregate_none (F : Nat → Option Metrics) (rng : List Nat) (a : Metrics)
    (h : ∀ j ∈ rng, F j = none) :
    rng.foldl (fun agg j => aggregateSamples agg (F j)) a = a := by
  induction rng generalizing a with
  | nil => rfl
  | cons x t ih =>
    rw [List.foldl_cons, h x (List.mem_cons_self x t), aggregateSamples_none]
    exact ih _ (fun j hj => h j (List.mem_cons_of_mem x hj))

/-- The flush/last-windows law for a non-empty run of consecutive reports:
`Flush(N)` at the last recorded second merges exactly the last
`min(N+1, k)` windows, each once. -/
theorem flush_last_windows_aux (lss' : List (List Str)) (ls : List Str) (t0 N : Nat)
    (ht0 : 60 ≤ t0) (hls : ls ≠ []) (hmem : ∀ l ∈ lss', l ≠ [])
    (hN1 : 1 ≤ N) (hN : N ≤ 59) :
    flush (recSeq fresh t0 (lss' ++ [ls])) (t0 + lss'.length) N =
      renderHistograms
        ((((lss' ++ [ls]).map parseLines).drop
            ((lss' ++ [ls]).length - min (N + 1) (lss' ++ [ls]).length)).foldl
          (fun a m => aggregateSamples a (some m)) []) := by
  obtain ⟨hl, hw, hs⟩ := recSeq_spec lss' ls t0 ht0 hls hmem
  rw [flush_eq_fold _ _ _ _ hl]
  have hcnt : ((((t0 + lss'.length : Nat)) : Int) -
      (((t0 + lss'.length : Nat) : Int) - ((N : Nat) : Int)) + 1).toNat = N + 1 := by
    push_cast
    omega
  rw [hcnt]
  congr 1
  set L := lss' ++ [ls] with hL
  have hLlen : L.length = lss'.length + 1 := by rw [hL]; simp
  set m := min (N + 1) L.length with hm
  have hmN : m ≤ N + 1 := by omega
  have hmL : m ≤ L.length := by omega
  have hm1 : 1 ≤ m := by omega
  have hgw : ∀ j, j ≤ N →
      getWindow (recSeq fresh t0 L) (((t0 + lss'.length : Nat) : Int) - ((N : Nat) : Int) +
        ((j : Nat) : Int)) =
        if N - j < lss'.length + 1 then
          some (parseLines (L.getD (lss'.length - (N - j)) []))
        else none := by
    intro j hj
    unfold getWindow
    rw [if_pos (by push_cast; omega)]
    rw [show ((((t0 + lss'.length : Nat) : Int)) - ((N : Nat) : Int) +
        ((j : Nat) : Int)).toNat = t0 + lss'.length - (N - j) from by push_cast; omega]
    exact hs (N - j) (by omega)
  rw [show N + 1 = (N + 1 - m) + m from by omega, List.range_add, List.foldl_append]
  rw [foldl_aggregate_none
    (fun j => getWindow (recSeq fresh t0 L)
      (((t0 + lss'.length : Nat) : Int) - ((N : Nat) : Int) + ((j : Nat) : Int)))
    (List.range (N + 1 - m)) []
    (by
      intro j hj
      rw [List.mem_range] at hj
      dsimp only
      rw [hgw j (by omega)]
      rw [if_neg (by omega)])]
  have hdrop : ((L.map parseLines).drop (L.length - m)) =
      (List.range m).map (fun x => parseLines (L.getD (L.length - m + x) [])) := by
    apply List.ext_getElem?
    intro i
    rw [List.getElem?_drop, List.getElem?_map, List.getElem?_map]
    by_cases hi : i < m
    · have hbd : L.length - m + i < L.length := by omega
      rw [List.getElem?_eq_getElem hbd,
        List.getElem?_eq_getElem (by simpa using hi : i < (List.range m).length)]
      simp only [Option.map_some', List.getElem_range]
      rw [List.getD_eq_getElem?_getD, List.getElem?_eq_getElem hbd]
      simp
    · rw [List.getElem?_eq_none (by omega),
        List.getElem?_eq_none (by simpa using hi : (List.range m).length ≤ i)]
      rfl
  rw [hdrop, List.foldl_map, List.foldl_map]
  apply List.foldl_ext
  intro a x hx
  rw [List.mem_range] at hx
  rw [hgw ((N + 1 - m) + x) (by omega), if_pos (by omega)]
  rw [show lss'.length - (N - (N + 1 - m + x)) = L.length - m + x from by omega]

/-- Claim C1, counterexample: Two reports at seconds 100 and 101; `Flush(1)` at
second 101 merges *both* windows (`1|2` and `1|5` sum to `H[1]=7`), not the
last `min(1, 2) = 1` window alone: the scan `now − N … lastTimestamp` is
inclusive on both ends and covers `N + 1` seconds. -/
theorem flush_not_last_min_windows_cex :
    flush (recSeq fresh 100 [[['=', 'm'], ['1', '|', '2']], [['=', 'm'], ['1', '|', '5']]])
        101 1 =
      [(['m'], ⟨['n'], [("H[1]=7").toList]⟩)] ∧
      flush (recSeq fresh 100 [[['=', 'm'], ['1', '|', '2']], [['=', 'm'], ['1', '|', '5']]])
          101 1 ≠
        renderHistograms
          ((([[['=', 'm'], ['1', '|', '2']], [['=', 'm'], ['1', '|', '5']]].map
                parseLines).drop (2 - min 1 2)).foldl
            (fun a m => aggregateSamples a (some m)) []) := by
  refine ⟨by decide, by decide⟩

/-- Claim C1, amended: For every non-empty sequence of reports finalised at
consecutive seconds `t0, t0+1, …` (each with at least one data line) and
every `1 ≤ N ≤ 59`, `Flush(N)` immediately after the last report returns
exactly the rendered sum of the last `min(N + 1, k)` windows' distributions,
each contributing once (`k` = number of recorded windows).  The scan runs
from `now − N` to `lastTimestamp` inclusive — `N + 1` seconds, not `N` — and
for `N ≥ 60` it would wrap the 60-slot ring and count slots twice. -/
theorem flush_sums_last_min_succ_windows (t0 N : Nat) (lss : List (List Str))
    (hk : lss ≠ []) (hne : ∀ l ∈ lss, l ≠ []) (hN1 : 1 ≤ N) (hN : N ≤ 59)
    (ht0 : 60 ≤ t0) :
    flush (recSeq fresh t0 lss) (t0 + lss.length - 1) N =
      renderHistograms
        (((lss.map parseLines).drop (lss.length - min (N + 1) lss.length)).foldl
          (fun a m => aggregateSamples a (some m)) []) := by
  obtain ⟨lss', ls, rfl⟩ : ∃ a b, lss = a ++ [b] := by
    rcases lss.eq_nil_or_concat with h | ⟨a, b, h⟩
    · exact absurd h hk
    · exact ⟨a, b, by rw [h, List.concat_eq_append]⟩
  have hls : ls ≠ [] := hne ls (by simp)
  have hmem : ∀ l ∈ lss', l ≠ [] := fun l hl => hne l (by simp [hl])
  rw [show t0 + (lss' ++ [ls]).length - 1 = t0 + lss'.length from by simp]
  exact flush_last_windows_aux lss' ls t0 N ht0 hls hmem hN1 hN

/-- Witness for `flush_sums_last_min_succ_windows`: one report at second 60,
`Flush(1)` at second 60. -/
theorem flush_sums_last_min_succ_windows_witness :
    flush (recSeq fresh 60 [[['=', 'm'], ['1', '|', '2']]]) (60 + 1 - 1) 1 =
      renderHistograms
        ((([[['=', 'm'], ['1', '|', '2']]].map parseLines).drop
            (1 - min (1 + 1) 1)).foldl (fun a m => aggregateSamples a (some m)) []) :=
  flush_sums_last_min_succ_windows 60 1 [[['=', 'm'], ['1', '|', '2']]] (by decide)
    (by decide) (by decide) (by decide) (by decide)
